import Mathlib

/-!
Verification of the `slice` byte-range utility (`src/main.rs`).

The development shallowly embeds the three parts of the program the claims
are about:

* the range resolver inlined in `main` (the "option stack": build, spicy
  fold, insert of the synthetic `skip + bytes` entry, stable sort by value,
  and the three pop-based checks ending in the priority match);
* the `slice` copy function (seek, bounded read, single write), modelled on
  in-memory byte lists;
* the `PrefixedU64ValueParser::parse_ref` numeric-literal parser together
  with a faithful model of `u64::from_str_radix`.

Machine integers are modelled as `Nat` with explicit reduction modulo `2 ^ 64`
exactly where the Rust `u64` arithmetic can overflow (release-profile
wrapping semantics).  Panics in the source become `Except.error` values
carrying the exact panic message.
-/

set_option maxHeartbeats 4000000

/-- `2 ^ 64`, the modulus of Rust `u64` arithmetic. -/
def U64LIM : Nat := 2 ^ 64

/-- Wrapping `u64` addition: what release-mode Rust `+` computes on `u64`. -/
def wadd (a b : Nat) : Nat := (a + b) % U64LIM

theorem wadd_lt (a b : Nat) : wadd a b < U64LIM := by
  have : 0 < U64LIM := by decide
  exact Nat.mod_lt _ this

theorem wadd_eq_of_lt {a b : Nat} (h : a + b < U64LIM) : wadd a b = a + b :=
  Nat.mod_eq_of_lt h

theorem wadd_wadd_zero (a b : Nat) : wadd (wadd 0 a) b = wadd a b := by
  simp only [wadd, Nat.zero_add, U64LIM]
  omega

/-- The option names used as keys on the resolver's stack.  `str` recovers the
exact string the source uses for each key (the source keys entries by these
strings; the five keys are pairwise distinct, so an enumeration is a faithful
rendering). -/
inductive OptName
  | skip
  | bytes
  | skipPlusBytes
  | «end»
  | inputFileSize
deriving DecidableEq

/-- The source string of each stack key. -/
def OptName.str : OptName → String
  | .skip => "skip"
  | .bytes => "bytes"
  | .skipPlusBytes => "skip + bytes"
  | .«end» => "end"
  | .inputFileSize => "input file size"

/-- One entry of the option stack: `(option_name, option_value)`. -/
abbrev Entry := OptName × Nat

/-- Building `opt_stack`: the present options among `skip`, `bytes`, `end`,
in that order (`["skip", "bytes", "end"] … filter … unwrap`). -/
def optStack (skip bytes endv : Option Nat) : List Entry :=
  (match skip with | some v => [(OptName.skip, v)] | none => [])
    ++ (match bytes with | some v => [(OptName.bytes, v)] | none => [])
    ++ (match endv with | some v => [(OptName.«end», v)] | none => [])

/-- The "spicy fold": one accumulator counts how many of `skip`/`bytes` are on
the stack, the other sums their values with `u64` (wrapping) addition. -/
def spicyFold (stack : List Entry) : Nat × Nat :=
  stack.foldl
    (fun acc e =>
      if e.1 = OptName.skip ∨ e.1 = OptName.bytes then (acc.1 + 1, wadd acc.2 e.2)
      else acc)
    (0, 0)

/-- `Vec::insert(2, e)`.  The source only calls this when both `skip` and
`bytes` are on the stack (so its length is at least 2 and Rust's `insert`
cannot panic); the fall-through arm is never reached in `resolve`. -/
def insertIdx2 (e : Entry) : List Entry → List Entry
  | a :: b :: rest => a :: b :: e :: rest
  | l => l

/-- Stable insertion by value: the new entry goes after every entry whose
value is `≤` its own.  Folding this over the stack reproduces Rust's stable
`sort_by(|(_, a), (_, b)| a.cmp(b))` (ascending by value, ties keeping the
original order). -/
def insEntry (e : Entry) : List Entry → List Entry
  | [] => [e]
  | x :: xs => if x.2 ≤ e.2 then x :: insEntry e xs else e :: x :: xs

/-- Rust's stable `sort_by` on values. -/
def sortStack (l : List Entry) : List Entry :=
  l.foldl (fun acc e => insEntry e acc) []

/-- `Vec::pop`: removes and returns the last element, together with the
remaining stack. -/
def popStack : List Entry → Option (Entry × List Entry)
  | [] => none
  | [e] => some (e, [])
  | e :: rest =>
    match popStack rest with
    | some (m, rest') => some (m, e :: rest')
    | none => none

/-- `opt_stack.iter().find(|(k, _)| *k == "end").is_some()`. -/
def hasEnd : List Entry → Bool
  | [] => false
  | e :: rest => match e.1 with | OptName.«end» => true | _ => hasEnd rest

/-- The `end` block of `main`: if `end` was supplied, the top of the (already
bound-checked) stack must be the `end` entry, whose value becomes the new
effective input length; any other entry on top exceeds `end` and panics. -/
def endCheck (input_len : Nat) (stack : List Entry) :
    Except String (Nat × List Entry) :=
  if hasEnd stack then
    match popStack stack with
    | some ((k, v), rest) =>
      match k with
      | OptName.«end» => .ok (v, rest)
      | _ => .error ("value of " ++ k.str ++ " cannot exceed value of end!")
    | none => .error "unwrap of empty stack"
  else .ok (input_len, stack)

/-- The final priority `match` of `main`: pop once more and dispatch on the
key; popping the synthetic `skip + bytes` entry reads the two remaining
entries through the slice `opt_stack[0..2]`. -/
def finalMatch (input_len : Nat) (stack : List Entry) : Except String (Nat × Nat) :=
  match popStack stack with
  | some ((OptName.skipPlusBytes, _), rest) =>
    match rest.take 2 with
    | [(ka, va), (_, vb)] =>
      match ka with
      | OptName.skip => .ok (va, vb)
      | OptName.bytes => .ok (vb, va)
      | _ => .error "forbidden error! pls file a bug report!"
    | _ => .error "slice index out of bounds"
  | some ((OptName.skip, v), _) => .ok (v, input_len - v)
  | some ((OptName.bytes, v), _) => .ok (0, v)
  | _ => .ok (0, input_len)

/-- The range resolver inlined in `main`: build the option stack, run the
spicy fold and insert the synthetic `skip + bytes` entry when both are
present, push the input file size, sort (stably, by value), and perform the
three pop-based stages.  Panics become `Except.error` with the panic
message. -/
def resolve (input_len : Nat) (skip bytes endv : Option Nat) :
    Except String (Nat × Nat) :=
  let stack0 := optStack skip bytes endv
  let fr := spicyFold stack0
  let stack1 :=
    if fr.1 = 2 then insertIdx2 (OptName.skipPlusBytes, fr.2) stack0 else stack0
  let sorted := sortStack (stack1 ++ [(OptName.inputFileSize, input_len)])
  match popStack sorted with
  | none => .ok (0, input_len)
  | some ((k0, _), stack2) =>
    match k0 with
    | OptName.inputFileSize =>
      match endCheck input_len stack2 with
      | .error msg => .error msg
      | .ok (len2, stack3) => finalMatch len2 stack3
    | _ => .error ("value of " ++ k0.str ++ " cannot exceed input file size!")

/-- `true` exactly on `Except.error` results (a panic of the source). -/
def isErr : Except String (Nat × Nat) → Bool
  | .error _ => true
  | .ok _ => false

/-- `true` exactly on the "forbidden error" internal panic of the final
priority match. -/
def isForbiddenErr : Except String (Nat × Nat) → Bool
  | .error s => if s = "forbidden error! pls file a bug report!" then true else false
  | .ok _ => false

/-- The spec's validation-failure condition: some supplied quantity is
strictly greater than its applicable ceiling.  The ceiling of `end` is the
input file size; the ceiling of every other quantity is `end` when present
and the input file size otherwise.  Following the spec, when both `skip` and
`bytes` are present their combined sum (as the code computes it, with `u64`
wrapping) counts as a bound-checked quantity. -/
def exceeds (n : Nat) (skip bytes endv : Option Nat) : Bool :=
  let ceil := endv.getD n
  (match skip with | some s => decide (ceil < s) | none => false)
    || (match bytes with | some b => decide (ceil < b) | none => false)
    || (match skip, bytes with
        | some s, some b => decide (ceil < wadd s b)
        | _, _ => false)
    || (match endv with | some e => decide (n < e) | none => false)

/-! ### Closed forms of the resolver, one per presence pattern

Each lemma rewrites `resolve` into an explicit decision tree.  The branch
conditions record which entry the stable sort leaves on top at each pop
(ties resolved towards the entry pushed later, as `Vec::pop` after a stable
sort does). -/

theorem resolve_nnn (n : Nat) : resolve n none none none = .ok (0, n) := rfl

theorem resolve_s (n s : Nat) :
    resolve n (some s) none none =
      (if s ≤ n then .ok (s, n - s)
       else .error ("value of " ++ OptName.skip.str ++ " cannot exceed input file size!")) := by
  simp only [resolve, optStack, spicyFold, List.foldl_cons, List.foldl_nil,
    List.cons_append, List.nil_append, List.append_nil, wadd_wadd_zero, insertIdx2, sortStack,
    insEntry, reduceCtorEq, or_self, or_true, true_or, or_false, false_or, if_true, if_false,
    Nat.reduceAdd, Nat.reduceEqDiff, eq_self_iff_true]
  split_ifs <;>
    (try simp only [insEntry, popStack, endCheck, finalMatch, hasEnd, List.take, OptName.str,
      eq_self_iff_true, if_true, if_false, reduceCtorEq]) <;>
    (try split_ifs) <;>
    (try simp only [insEntry, popStack, endCheck, finalMatch, hasEnd, List.take, OptName.str,
      eq_self_iff_true, if_true, if_false, reduceCtorEq]) <;>
    first | rfl | (exfalso; omega)

theorem resolve_b (n b : Nat) :
    resolve n none (some b) none =
      (if b ≤ n then .ok (0, b)
       else .error ("value of " ++ OptName.bytes.str ++ " cannot exceed input file size!")) := by
  simp only [resolve, optStack, spicyFold, List.foldl_cons, List.foldl_nil,
    List.cons_append, List.nil_append, List.append_nil, wadd_wadd_zero, insertIdx2, sortStack,
    insEntry, reduceCtorEq, or_self, or_true, true_or, or_false, false_or, if_true, if_false,
    Nat.reduceAdd, Nat.reduceEqDiff, eq_self_iff_true]
  split_ifs <;>
    (try simp only [insEntry, popStack, endCheck, finalMatch, hasEnd, List.take, OptName.str,
      eq_self_iff_true, if_true, if_false, reduceCtorEq]) <;>
    (try split_ifs) <;>
    (try simp only [insEntry, popStack, endCheck, finalMatch, hasEnd, List.take, OptName.str,
      eq_self_iff_true, if_true, if_false, reduceCtorEq]) <;>
    first | rfl | (exfalso; omega)

theorem resolve_e (n e : Nat) :
    resolve n none none (some e) =
      (if e ≤ n then .ok (0, e)
       else .error ("value of " ++ OptName.«end».str ++ " cannot exceed input file size!")) := by
  simp only [resolve, optStack, spicyFold, List.foldl_cons, List.foldl_nil,
    List.cons_append, List.nil_append, List.append_nil, wadd_wadd_zero, insertIdx2, sortStack,
    insEntry, reduceCtorEq, or_self, or_true, true_or, or_false, false_or, if_true, if_false,
    Nat.reduceAdd, Nat.reduceEqDiff, eq_self_iff_true]
  split_ifs <;>
    (try simp only [insEntry, popStack, endCheck, finalMatch, hasEnd, List.take, OptName.str,
      eq_self_iff_true, if_true, if_false, reduceCtorEq]) <;>
    (try split_ifs) <;>
    (try simp only [insEntry, popStack, endCheck, finalMatch, hasEnd, List.take, OptName.str,
      eq_self_iff_true, if_true, if_false, reduceCtorEq]) <;>
    first | rfl | (exfalso; omega)

theorem resolve_se (n s e : Nat) :
    resolve n (some s) none (some e) =
      (if s ≤ e then
        if e ≤ n then .ok (s, e - s)
        else .error ("value of " ++ OptName.«end».str ++ " cannot exceed input file size!")
      else if s ≤ n then
        .error ("value of " ++ OptName.skip.str ++ " cannot exceed value of end!")
      else .error ("value of " ++ OptName.skip.str ++ " cannot exceed input file size!")) := by
  simp only [resolve, optStack, spicyFold, List.foldl_cons, List.foldl_nil,
    List.cons_append, List.nil_append, List.append_nil, wadd_wadd_zero, insertIdx2, sortStack,
    insEntry, reduceCtorEq, or_self, or_true, true_or, or_false, false_or, if_true, if_false,
    Nat.reduceAdd, Nat.reduceEqDiff, eq_self_iff_true]
  split_ifs <;>
    (try simp only [insEntry, popStack, endCheck, finalMatch, hasEnd, List.take, OptName.str,
      eq_self_iff_true, if_true, if_false, reduceCtorEq]) <;>
    (try split_ifs) <;>
    (try simp only [insEntry, popStack, endCheck, finalMatch, hasEnd, List.take, OptName.str,
      eq_self_iff_true, if_true, if_false, reduceCtorEq]) <;>
    (try split_ifs) <;>
    (try simp only [insEntry, popStack, endCheck, finalMatch, hasEnd, List.take, OptName.str,
      eq_self_iff_true, if_true, if_false, reduceCtorEq]) <;>
    first | rfl | (exfalso; omega)

theorem resolve_be (n b e : Nat) :
    resolve n none (some b) (some e) =
      (if b ≤ e then
        if e ≤ n then .ok (0, b)
        else .error ("value of " ++ OptName.«end».str ++ " cannot exceed input file size!")
      else if b ≤ n then
        .error ("value of " ++ OptName.bytes.str ++ " cannot exceed value of end!")
      else .error ("value of " ++ OptName.bytes.str ++ " cannot exceed input file size!")) := by
  simp only [resolve, optStack, spicyFold, List.foldl_cons, List.foldl_nil,
    List.cons_append, List.nil_append, List.append_nil, wadd_wadd_zero, insertIdx2, sortStack,
    insEntry, reduceCtorEq, or_self, or_true, true_or, or_false, false_or, if_true, if_false,
    Nat.reduceAdd, Nat.reduceEqDiff, eq_self_iff_true]
  split_ifs <;>
    (try simp only [insEntry, popStack, endCheck, finalMatch, hasEnd, List.take, OptName.str,
      eq_self_iff_true, if_true, if_false, reduceCtorEq]) <;>
    (try split_ifs) <;>
    (try simp only [insEntry, popStack, endCheck, finalMatch, hasEnd, List.take, OptName.str,
      eq_self_iff_true, if_true, if_false, reduceCtorEq]) <;>
    (try split_ifs) <;>
    (try simp only [insEntry, popStack, endCheck, finalMatch, hasEnd, List.take, OptName.str,
      eq_self_iff_true, if_true, if_false, reduceCtorEq]) <;>
    first | rfl | (exfalso; omega)

theorem resolve_sb (n s b : Nat) :
    resolve n (some s) (some b) none =
      (if b ≤ wadd s b ∧ s ≤ wadd s b then
        if wadd s b ≤ n then .ok (s, b)
        else .error ("value of " ++ OptName.skipPlusBytes.str ++ " cannot exceed input file size!")
      else if s ≤ b then
        if b ≤ n then .ok (0, b)
        else .error ("value of " ++ OptName.bytes.str ++ " cannot exceed input file size!")
      else
        if s ≤ n then .ok (s, n - s)
        else .error ("value of " ++ OptName.skip.str ++ " cannot exceed input file size!")) := by
  simp only [resolve, optStack, spicyFold, List.foldl_cons, List.foldl_nil,
    List.cons_append, List.nil_append, List.append_nil, wadd_wadd_zero, insertIdx2, sortStack,
    insEntry, reduceCtorEq, or_self, or_true, true_or, or_false, false_or, if_true, if_false,
    Nat.reduceAdd, Nat.reduceEqDiff, eq_self_iff_true]
  generalize wadd s b = w
  split_ifs <;>
    (try simp only [insEntry, popStack, endCheck, finalMatch, hasEnd, List.take, OptName.str,
      eq_self_iff_true, if_true, if_false, reduceCtorEq]) <;>
    (try split_ifs) <;>
    (try simp only [insEntry, popStack, endCheck, finalMatch, hasEnd, List.take, OptName.str,
      eq_self_iff_true, if_true, if_false, reduceCtorEq]) <;>
    (try split_ifs) <;>
    (try simp only [insEntry, popStack, endCheck, finalMatch, hasEnd, List.take, OptName.str,
      eq_self_iff_true, if_true, if_false, reduceCtorEq]) <;>
    first | rfl | (exfalso; omega)

theorem resolve_sbe (n s b e : Nat) :
    resolve n (some s) (some b) (some e) =
      (if b ≤ wadd s b ∧ s ≤ wadd s b then
        if wadd s b ≤ e then
          if e ≤ n then .ok (s, b)
          else .error ("value of " ++ OptName.«end».str ++ " cannot exceed input file size!")
        else if wadd s b ≤ n then
          .error ("value of " ++ OptName.skipPlusBytes.str ++ " cannot exceed value of end!")
        else .error ("value of " ++ OptName.skipPlusBytes.str ++ " cannot exceed input file size!")
      else if s ≤ b then
        if b ≤ e then
          if e ≤ n then .ok (0, b)
          else .error ("value of " ++ OptName.«end».str ++ " cannot exceed input file size!")
        else if b ≤ n then
          .error ("value of " ++ OptName.bytes.str ++ " cannot exceed value of end!")
        else .error ("value of " ++ OptName.bytes.str ++ " cannot exceed input file size!")
      else
        if s ≤ e then
          if e ≤ n then .ok (s, e - s)
          else .error ("value of " ++ OptName.«end».str ++ " cannot exceed input file size!")
        else if s ≤ n then
          .error ("value of " ++ OptName.skip.str ++ " cannot exceed value of end!")
        else .error ("value of " ++ OptName.skip.str ++ " cannot exceed input file size!")) := by
  simp only [resolve, optStack, spicyFold, List.foldl_cons, List.foldl_nil,
    List.cons_append, List.nil_append, wadd_wadd_zero, insertIdx2, sortStack, insEntry,
    reduceCtorEq, or_self, or_true, true_or, or_false, false_or, if_true, if_false,
    Nat.reduceAdd, Nat.reduceEqDiff, eq_self_iff_true]
  generalize wadd s b = w
  split_ifs <;>
    (try simp only [insEntry, popStack, endCheck, finalMatch, hasEnd, List.take, OptName.str,
      eq_self_iff_true, if_true, if_false, reduceCtorEq]) <;>
    (try split_ifs) <;>
    (try simp only [insEntry, popStack, endCheck, finalMatch, hasEnd, List.take, OptName.str,
      eq_self_iff_true, if_true, if_false, reduceCtorEq]) <;>
    (try split_ifs) <;>
    (try simp only [insEntry, popStack, endCheck, finalMatch, hasEnd, List.take, OptName.str,
      eq_self_iff_true, if_true, if_false, reduceCtorEq]) <;>
    (try split_ifs) <;>
    (try simp only [insEntry, popStack, endCheck, finalMatch, hasEnd, List.take, OptName.str,
      eq_self_iff_true, if_true, if_false, reduceCtorEq]) <;>
    first | rfl | (exfalso; omega)

/-! ### Claims about the range resolver -/

/-- Claim C1 (refuted — code bug): the claim requires that a `skip`/`bytes`
pair whose mathematical sum exceeds the `u64` range fails resolution with a
bound-violation error and is never allowed to pass validation as a wrapped
value.  In the code the sum is plain `u64` addition: with input size
`2^64 - 1`, `skip = 2^64 - 1` and `bytes = 1` the sum wraps to `0`, passes
every bound check, and resolution SUCCEEDS (returning the pair popped for
`skip`), contradicting the claim. -/
theorem claim_C1_overflow_wraps :
    U64LIM ≤ (U64LIM - 1) + 1 ∧
      resolve (U64LIM - 1) (some (U64LIM - 1)) (some 1) none = .ok (U64LIM - 1, 0) :=
  ⟨by decide, rfl⟩

/-- Claim C2: resolution fails if and only if some supplied quantity (the
values of `skip`, `bytes`, `end`, and — following the spec — the combined
`skip + bytes` sum as the code computes it) strictly exceeds its applicable
ceiling: the input size for `end`, and `end` when present (else the input
size) for everything else.  A quantity exactly equal to the ceiling passes;
in particular `skip == input_size` with no `bytes`/`end` resolves to
`(input_size, 0)`, not an error. -/
theorem claim_C2_validation_iff :
    (∀ (n : Nat) (skip bytes endv : Option Nat),
        isErr (resolve n skip bytes endv) = exceeds n skip bytes endv) ∧
    (∀ n : Nat, resolve n (some n) none none = .ok (n, 0)) := by
  constructor
  · intro n skip bytes endv
    rcases skip with _ | s <;> rcases bytes with _ | b <;> rcases endv with _ | e <;>
      simp only [resolve_nnn, resolve_s, resolve_b, resolve_e, resolve_se, resolve_be,
        resolve_sb, resolve_sbe, exceeds, Option.getD] <;>
      (try split_ifs) <;>
      first
        | rfl
        | (symm;
           simp only [isErr, Bool.or_eq_true, Bool.or_eq_false_iff, decide_eq_true_eq,
             decide_eq_false_iff_not, not_lt, reduceCtorEq, eq_self_iff_true, true_and,
             and_true, false_or, or_false, and_self, or_self];
           omega)
        | (symm;
           simp only [isErr, Bool.or_eq_true, Bool.or_eq_false_iff, decide_eq_true_eq,
             decide_eq_false_iff_not, not_lt, reduceCtorEq, eq_self_iff_true, true_and,
             and_true, false_or, or_false, and_self, or_self])
  · intro n
    rw [resolve_s, if_pos (Nat.le_refl n), Nat.sub_self]

/-- Claim C4 (refuted, see the amended version below): with `skip`, `bytes`
and `end` all three supplied, the resolver does NOT require
`skip + bytes = end`: here `skip = 0`, `bytes = 1`, `end = 2` with
`0 + 1 ≠ 2` is accepted. -/
theorem claim_C4_counterexample :
    resolve 2 (some 0) (some 1) (some 2) = .ok (0, 1) ∧ 0 + 1 ≠ 2 :=
  ⟨rfl, by decide⟩

/-- Claim C4 (amended): with all three quantities supplied (and no `u64`
overflow of the sum), the resolver checks `skip + bytes ≤ end` — any
combination with `skip + bytes > end` is rejected — and whenever validation
passes it returns exactly `(skip, bytes)`, overriding nothing; consistency
is only enforced as this upper bound, so `skip + bytes < end` is accepted
with `end` unused beyond the ceiling check. -/
theorem claim_C4_amended (n s b e : Nat) (hov : s + b < U64LIM) :
    (e < s + b → isErr (resolve n (some s) (some b) (some e)) = true) ∧
    (∀ p, resolve n (some s) (some b) (some e) = .ok p → p = (s, b)) := by
  have hw : wadd s b = s + b := wadd_eq_of_lt hov
  rw [resolve_sbe, hw, if_pos (by omega : b ≤ s + b ∧ s ≤ s + b)]
  constructor
  · intro hlt
    rw [if_neg (by omega : ¬ s + b ≤ e)]
    split_ifs <;> rfl
  · intro p hp
    by_cases hse : s + b ≤ e
    · rw [if_pos hse] at hp
      split_ifs at hp
      exact (Except.ok.inj hp).symm
    · rw [if_neg hse] at hp
      split_ifs at hp

theorem claim_C4_amended_witness :
    ((2 + 3 < U64LIM ∧ 4 < 2 + 3) ∧
      isErr (resolve 10 (some 2) (some 3) (some 4)) = true) :=
  ⟨⟨by decide, by decide⟩, (claim_C4_amended 10 2 3 4 (by decide)).1 (by decide)⟩

/-- Claim C5: the "forbidden error" catch-all of the final priority match is
unreachable: no input whatsoever makes the resolver return it (whenever the
synthetic `skip + bytes` entry is popped there, the two remaining entries
are exactly the `skip` and `bytes` entries, matched by the two named
arms). -/
theorem claim_C5_no_forbidden_error :
    ∀ (n : Nat) (skip bytes endv : Option Nat),
      isForbiddenErr (resolve n skip bytes endv) = false := by
  intro n skip bytes endv
  rcases skip with _ | s <;> rcases bytes with _ | b <;> rcases endv with _ | e <;>
    simp only [resolve_nnn, resolve_s, resolve_b, resolve_e, resolve_se, resolve_be,
      resolve_sb, resolve_sbe] <;>
    (try split_ifs) <;>
    rfl

/-- Claim C6: whenever both `skip` and `bytes` are supplied with
`skip + bytes ≤ input_size` (and `skip + bytes ≤ end ≤ input_size` when
`end` is also supplied), resolution returns exactly `(skip, bytes)`,
unaltered.  (`input_size < 2^64` records that file sizes are `u64`.) -/
theorem claim_C6_both_exact :
    (∀ n s b : Nat, n < U64LIM → s + b ≤ n →
        resolve n (some s) (some b) none = .ok (s, b)) ∧
    (∀ n s b e : Nat, n < U64LIM → s + b ≤ e → e ≤ n →
        resolve n (some s) (some b) (some e) = .ok (s, b)) := by
  constructor
  · intro n s b hn hsb
    have hw : wadd s b = s + b := wadd_eq_of_lt (by omega)
    rw [resolve_sb, hw, if_pos (by omega : b ≤ s + b ∧ s ≤ s + b), if_pos hsb]
  · intro n s b e hn hse hen
    have hw : wadd s b = s + b := wadd_eq_of_lt (by omega)
    rw [resolve_sbe, hw, if_pos (by omega : b ≤ s + b ∧ s ≤ s + b), if_pos hse, if_pos hen]

theorem claim_C6_both_exact_witness :
    ((10 < U64LIM ∧ 2 + 3 ≤ 10) ∧ resolve 10 (some 2) (some 3) none = .ok (2, 3)) :=
  ⟨⟨by decide, by decide⟩, claim_C6_both_exact.1 10 2 3 (by decide) (by decide)⟩

/-- Claim C7: with `skip` supplied and `bytes` absent, resolution returns
`(skip, ceiling - skip)` where the ceiling is `end` when supplied and the
input size otherwise. -/
theorem claim_C7_start_only :
    (∀ n s : Nat, s ≤ n → resolve n (some s) none none = .ok (s, n - s)) ∧
    (∀ n s e : Nat, s ≤ e → e ≤ n → resolve n (some s) none (some e) = .ok (s, e - s)) := by
  constructor
  · intro n s h
    rw [resolve_s, if_pos h]
  · intro n s e h1 h2
    rw [resolve_se, if_pos h1, if_pos h2]

theorem claim_C7_start_only_witness :
    ((3 ≤ 9 ∧ 9 ≤ 10) ∧ resolve 10 (some 3) none (some 9) = .ok (3, 9 - 3)) :=
  ⟨⟨by decide, by decide⟩, claim_C7_start_only.2 10 3 9 (by decide) (by decide)⟩

/-- Claim C8: with neither `skip` nor `bytes` supplied, resolution returns
`(0, ceiling)`: `(0, input_size)` with no constraints at all, and `(0, end)`
with only `end ≤ input_size`. -/
theorem claim_C8_no_start_no_length :
    (∀ n : Nat, resolve n none none none = .ok (0, n)) ∧
    (∀ n e : Nat, e ≤ n → resolve n none none (some e) = .ok (0, e)) := by
  refine ⟨fun n => resolve_nnn n, fun n e h => ?_⟩
  rw [resolve_e, if_pos h]

theorem claim_C8_no_start_no_length_witness :
    (5 ≤ 7 ∧ resolve 7 none none (some 5) = .ok (0, 5)) :=
  ⟨by decide, claim_C8_no_start_no_length.2 7 5 (by decide)⟩

/-- Claim C9: with only `bytes` supplied (`bytes ≤ input_size`, and
`bytes ≤ end ≤ input_size` when `end` is also supplied), resolution returns
`(0, bytes)`. -/
theorem claim_C9_length_only :
    (∀ n b : Nat, b ≤ n → resolve n none (some b) none = .ok (0, b)) ∧
    (∀ n b e : Nat, b ≤ e → e ≤ n → resolve n none (some b) (some e) = .ok (0, b)) := by
  constructor
  · intro n b h
    rw [resolve_b, if_pos h]
  · intro n b e h1 h2
    rw [resolve_be, if_pos h1, if_pos h2]

theorem claim_C9_length_only_witness :
    ((4 ≤ 6 ∧ 6 ≤ 10) ∧ resolve 10 none (some 4) (some 6) = .ok (0, 4)) :=
  ⟨⟨by decide, by decide⟩, claim_C9_length_only.2 10 4 6 (by decide) (by decide)⟩

/-! ### The range copier (`slice` in `src/main.rs`)

The input is modelled as its in-memory byte sequence.  Seeking to absolute
offset `skip` leaves the suffix `input.drop skip` readable (when `skip = 0`
the source skips the seek, leaving the handle at position 0 — the same
suffix); `input.take(bytes).read_to_end` then reads at most `bytes` bytes
into the buffer, fewer when end-of-file comes first; `write_all` emits the
buffer unchanged, so the function's result is the written output. -/

namespace Copier

def slice (bytes skip : Nat) (input : List Nat) : List Nat :=
  let data := (if skip > 0 then input.drop skip else input).take bytes
  data

end Copier

/-- Claim C3: for every input byte sequence and every resolved pair
`(start, length)` with `start + length` within the input's size, the copier
writes exactly the contiguous substring `content[start : start + length]`,
unchanged: byte `i` of the output is byte `start + i` of the input, for all
`i < length`. -/
theorem claim_C3_copy_roundtrip (content : List Nat) (start length : Nat)
    (h : start + length ≤ content.length) :
    Copier.slice length start content =
      (List.range length).map (fun i => content.getD (start + i) 0) := by
  have hdrop : (if start > 0 then content.drop start else content) = content.drop start := by
    split_ifs with hs
    · rfl
    · rw [Nat.not_lt, Nat.le_zero] at hs
      rw [hs, List.drop_zero]
  rw [Copier.slice, hdrop]
  apply List.ext_getElem
  · simp
    omega
  · intro i h1 h2
    simp only [List.getElem_take, List.getElem_drop, List.getElem_map, List.getElem_range]
    rw [List.getD_eq_getElem]

theorem claim_C3_copy_roundtrip_witness :
    (1 + 2 ≤ 4 ∧
      Copier.slice 2 1 [5, 6, 7, 8] =
        (List.range 2).map (fun i => List.getD [5, 6, 7, 8] (1 + i) 0)) :=
  ⟨by decide, claim_C3_copy_roundtrip [5, 6, 7, 8] 1 2 (by decide)⟩

/-! ### The numeric-literal argument parser (`PrefixedU64ValueParser::parse_ref`)

Arguments are modelled as their character sequences (the source operates on
the UTF-8 bytes of the argument string; on the ASCII strings of the literal
grammar the two coincide).  `u64::from_str_radix` is modelled after the Rust
standard library: an optional single leading `+`, then digits via
`char::to_digit`, accumulated with overflow checks against the `u64` range,
with the standard error messages. -/

/-- Rust `char::to_digit(radix)`: `0`-`9` and (case-insensitively) letters
valued 10 and up, accepted when the value is below the radix. -/
def toDigit (radix : Nat) (c : Char) : Option Nat :=
  let v :=
    if '0' ≤ c ∧ c ≤ '9' then some (c.toNat - '0'.toNat)
    else if 'a' ≤ c ∧ c ≤ 'z' then some (c.toNat - 'a'.toNat + 10)
    else if 'A' ≤ c ∧ c ≤ 'Z' then some (c.toNat - 'A'.toNat + 10)
    else none
  match v with
  | some d => if d < radix then some d else none
  | none => none

/-- The digit loop of `u64::from_str_radix`: `checked_mul`/`checked_add`
against the `u64` range, failing on the first non-digit or overflow. -/
def parseDigits (radix : Nat) : List Char → Nat → Except String Nat
  | [], acc => .ok acc
  | c :: cs, acc =>
    match toDigit radix c with
    | none => .error "invalid digit found in string"
    | some d =>
      if radix * acc + d < U64LIM then parseDigits radix cs (radix * acc + d)
      else .error "number too large to fit in target type"

/-- `u64::from_str_radix` (unsigned: a single leading `+` is allowed, `-` is
not a digit), with Rust's error messages. -/
def from_str_radix (s : List Char) (radix : Nat) : Except String Nat :=
  match s with
  | [] => .error "cannot parse integer from empty string"
  | c :: rest =>
    if c = '+' then
      if rest = [] then .error "invalid digit found in string"
      else parseDigits radix rest 0
    else parseDigits radix (c :: rest) 0

/-- `str::trim_start_matches` for a two-character pattern: repeatedly strips
every leading copy of the pattern. -/
def trimStartMatches2 (p0 p1 : Char) : List Char → List Char
  | c0 :: c1 :: rest =>
    if c0 = p0 ∧ c1 = p1 then trimStartMatches2 p0 p1 rest else c0 :: c1 :: rest
  | l => l

/-- `PrefixedU64ValueParser::parse_ref` on the characters of the argument:
remove every underscore, pick the base from the first two characters, strip
the leading base-prefix copies, and run `u64::from_str_radix`. -/
def parse_ref (value : List Char) : Except String Nat :=
  let num := value.filter (fun c => c ≠ '_')
  let pfx := if num.length < 2 then [] else num.take 2
  let pb :=
    if pfx = ['0', 'x'] then (trimStartMatches2 '0' 'x' num, 16)
    else if pfx = ['0', 'o'] then (trimStartMatches2 '0' 'o' num, 8)
    else if pfx = ['0', 'b'] then (trimStartMatches2 '0' 'b' num, 2)
    else (num, 10)
  from_str_radix pb.1 pb.2

/-- `true` when `c` is a digit of the base. -/
def isBaseDigit (radix : Nat) (c : Char) : Bool := (toDigit radix c).isSome

/-- A run of digits of the base with underscores between digits: nonempty,
first and last characters are digits, every character a digit or `_`. -/
def bodyOk (radix : Nat) (l : List Char) : Bool :=
  (match l.head? with | some c => isBaseDigit radix c | none => false)
    && (match l.getLast? with | some c => isBaseDigit radix c | none => false)
    && l.all (fun c => isBaseDigit radix c || c = '_')

/-- The value of a digit run read in the base, continuing from `acc`. -/
def digitsValFrom (radix acc : Nat) (ds : List Char) : Nat :=
  ds.foldl (fun a c => radix * a + (toDigit radix c).getD 0) acc

def digitsVal (radix : Nat) (ds : List Char) : Nat := digitsValFrom radix 0 ds

/-- The spec's literal grammar (section 6): an optional single `0x`/`0o`/`0b`
prefix selecting base 16/8/2 (base 10 otherwise), then a run of digits of
that base with underscores between digits; the value is the run with the
underscores stripped, read in the base.  `none` for strings outside the
grammar. -/
def specLiteralVal (value : List Char) : Option Nat :=
  let pb :=
    if value.take 2 = ['0', 'x'] then (value.drop 2, 16)
    else if value.take 2 = ['0', 'o'] then (value.drop 2, 8)
    else if value.take 2 = ['0', 'b'] then (value.drop 2, 2)
    else (value, 10)
  if bodyOk pb.2 pb.1 then some (digitsVal pb.2 (pb.1.filter (fun c => c ≠ '_'))) else none

theorem toDigit_underscore (radix : Nat) : toDigit radix '_' = none := by
  simp only [toDigit]
  rw [if_neg (by decide), if_neg (by decide), if_neg (by decide)]

theorem toDigit_plus (radix : Nat) : toDigit radix '+' = none := by
  simp only [toDigit]
  rw [if_neg (by decide), if_neg (by decide), if_neg (by decide)]

theorem isBaseDigit_ne_underscore {radix : Nat} {c : Char}
    (h : isBaseDigit radix c = true) : c ≠ '_' := by
  intro hcon
  rw [hcon, isBaseDigit, toDigit_underscore] at h
  exact Bool.noConfusion h

theorem digitsValFrom_le (radix : Nat) (hr : 1 ≤ radix) (ds : List Char) :
    ∀ acc : Nat, acc ≤ digitsValFrom radix acc ds := by
  induction ds with
  | nil => intro acc; simp [digitsValFrom]
  | cons c cs ih =>
    intro acc
    simp only [digitsValFrom, List.foldl_cons]
    have h1 : acc ≤ radix * acc + (toDigit radix c).getD 0 :=
      Nat.le_trans (Nat.le_mul_of_pos_left acc hr) (Nat.le_add_right _ _)
    exact Nat.le_trans h1 (ih _)

theorem digitsValFrom_cons (radix acc : Nat) (c : Char) (cs : List Char) :
    digitsValFrom radix acc (c :: cs) =
      digitsValFrom radix (radix * acc + (toDigit radix c).getD 0) cs := by
  simp [digitsValFrom]

theorem parseDigits_eq (radix : Nat) (hr : 1 ≤ radix) (ds : List Char) :
    ∀ acc : Nat, acc < U64LIM → (∀ c ∈ ds, isBaseDigit radix c = true) →
      parseDigits radix ds acc =
        (if digitsValFrom radix acc ds < U64LIM then .ok (digitsValFrom radix acc ds)
         else .error "number too large to fit in target type") := by
  induction ds with
  | nil =>
    intro acc hacc _
    simp [parseDigits, digitsValFrom, hacc]
  | cons c cs ih =>
    intro acc hacc hd
    have hc : isBaseDigit radix c = true := hd c (by simp)
    obtain ⟨d, hdc⟩ := Option.isSome_iff_exists.mp hc
    simp only [parseDigits, digitsValFrom_cons, hdc, Option.getD_some]
    by_cases hlt : radix * acc + d < U64LIM
    · rw [if_pos hlt, ih (radix * acc + d) hlt (fun x hx => hd x (by simp [hx]))]
    · rw [if_neg hlt, if_neg]
      have := digitsValFrom_le radix hr cs (radix * acc + d)
      omega

theorem from_str_radix_digits (radix : Nat) (hr : 1 ≤ radix) (ds : List Char)
    (hne : ds ≠ []) (hdig : ∀ c ∈ ds, isBaseDigit radix c = true) :
    from_str_radix ds radix =
      (if digitsVal radix ds < U64LIM then .ok (digitsVal radix ds)
       else .error "number too large to fit in target type") := by
  match ds, hne with
  | c :: cs, _ =>
    have hc : isBaseDigit radix c = true := hdig c (by simp)
    have hplus : ¬ c = '+' := by
      intro hcon
      rw [hcon, isBaseDigit, toDigit_plus] at hc
      exact Bool.noConfusion hc
    simp only [from_str_radix, if_neg hplus]
    exact parseDigits_eq radix hr (c :: cs) 0 (by decide) hdig

theorem trim2_digits (p0 p1 : Char) (radix : Nat) (ds : List Char)
    (hdig : ∀ c ∈ ds, isBaseDigit radix c = true)
    (hpd : isBaseDigit radix p1 = false) :
    trimStartMatches2 p0 p1 ds = ds := by
  match ds with
  | [] => rfl
  | [c] => rfl
  | c0 :: c1 :: rest =>
    rw [trimStartMatches2, if_neg]
    intro hcon
    have h1 := hdig c1 (by simp)
    rw [hcon.2, hpd] at h1
    exact Bool.noConfusion h1

theorem bodyOk_facts {radix : Nat} {l : List Char} (h : bodyOk radix l = true) :
    l.filter (fun c => c ≠ '_') ≠ [] ∧
      ∀ c ∈ l.filter (fun c => c ≠ '_'), isBaseDigit radix c = true := by
  rw [bodyOk, Bool.and_eq_true, Bool.and_eq_true] at h
  obtain ⟨⟨hhead, _⟩, hall⟩ := h
  rw [List.all_eq_true] at hall
  have hmemdig : ∀ c ∈ l.filter (fun c => c ≠ '_'), isBaseDigit radix c = true := by
    intro c hc
    rw [List.mem_filter] at hc
    obtain ⟨hmem, hne⟩ := hc
    have hor := hall c hmem
    rw [Bool.or_eq_true] at hor
    rcases hor with hd | he
    · exact hd
    · rw [decide_eq_true_eq] at he
      rw [decide_eq_true_eq] at hne
      exact absurd he hne
  refine ⟨?_, hmemdig⟩
  cases l with
  | nil => exact Bool.noConfusion hhead
  | cons c0 t =>
    rw [List.head?_cons] at hhead
    have hc0 : c0 ≠ '_' := isBaseDigit_ne_underscore hhead
    simp [List.filter_cons, hc0]

theorem trim_then_parse (p0 p1 : Char) (radix : Nat) (ds : List Char)
    (hr : 1 ≤ radix) (hpd : isBaseDigit radix p1 = false)
    (hne : ds ≠ []) (hdig : ∀ c ∈ ds, isBaseDigit radix c = true) :
    from_str_radix (trimStartMatches2 p0 p1 (p0 :: p1 :: ds)) radix =
      (if digitsVal radix ds < U64LIM then .ok (digitsVal radix ds)
       else .error "number too large to fit in target type") := by
  have ht : trimStartMatches2 p0 p1 (p0 :: p1 :: ds) = ds := by
    rw [trimStartMatches2, if_pos ⟨rfl, rfl⟩]
    exact trim2_digits p0 p1 radix ds hdig hpd
  rw [ht]
  exact from_str_radix_digits radix hr ds hne hdig

theorem take2_ne_marker {radix : Nat} {ds : List Char} (p0 p1 : Char)
    (hdig : ∀ c ∈ ds, isBaseDigit radix c = true)
    (hpd : isBaseDigit radix p1 = false) :
    (if ds.length < 2 then ([] : List Char) else ds.take 2) ≠ [p0, p1] := by
  split_ifs with hl
  · simp
  · intro hcon
    have hmem : p1 ∈ ds.take 2 := by rw [hcon]; simp
    have h1 := hdig p1 (List.mem_of_mem_take hmem)
    rw [hpd] at h1
    exact Bool.noConfusion h1

theorem pfx_cons2 (a b : Char) (l : List Char) :
    (if (a :: b :: l).length < 2 then ([] : List Char) else (a :: b :: l).take 2) = [a, b] := by
  rw [if_neg]
  · rfl
  · simp only [List.length_cons]
    omega

theorem parse_ref_grammar_sound (v : List Char) (n : Nat)
    (h : specLiteralVal v = some n) :
    parse_ref v =
      (if n < U64LIM then .ok n
       else .error "number too large to fit in target type") := by
  by_cases h16 : v.take 2 = ['0', 'x']
  · obtain ⟨a, b, t, rfl⟩ : ∃ a b t, v = a :: b :: t := by
      rcases v with _ | ⟨a, _ | ⟨b, t⟩⟩
      · simp at h16
      · simp [List.take] at h16
      · exact ⟨a, b, t, rfl⟩
    obtain ⟨rfl, rfl⟩ : a = '0' ∧ b = 'x' := by
      have := h16
      simp [List.take] at this
      exact this
    have hspec : specLiteralVal ('0' :: 'x' :: t) =
        (if bodyOk 16 t then some (digitsVal 16 (t.filter (fun c => c ≠ '_'))) else none) := rfl
    rw [hspec] at h
    by_cases hb : bodyOk 16 t = true
    · rw [if_pos hb] at h
      have hn := Option.some.inj h
      obtain ⟨hne, hdig⟩ := bodyOk_facts hb
      have hnum : ('0' :: 'x' :: t).filter (fun c => c ≠ '_') =
          '0' :: 'x' :: t.filter (fun c => c ≠ '_') := by
        rw [List.filter_cons, if_pos (by decide), List.filter_cons, if_pos (by decide)]
      simp only [parse_ref, hnum]
      rw [pfx_cons2]
      rw [if_pos (rfl : (['0', 'x'] : List Char) = ['0', 'x']), ← hn]
      exact trim_then_parse '0' 'x' 16 (t.filter (fun c => c ≠ '_')) (by decide) (by decide) hne hdig
    · rw [if_neg hb] at h
      exact Option.noConfusion h
  by_cases h8 : v.take 2 = ['0', 'o']
  · obtain ⟨a, b, t, rfl⟩ : ∃ a b t, v = a :: b :: t := by
      rcases v with _ | ⟨a, _ | ⟨b, t⟩⟩
      · simp at h8
      · simp [List.take] at h8
      · exact ⟨a, b, t, rfl⟩
    obtain ⟨rfl, rfl⟩ : a = '0' ∧ b = 'o' := by
      have := h8
      simp [List.take] at this
      exact this
    have hspec : specLiteralVal ('0' :: 'o' :: t) =
        (if bodyOk 8 t then some (digitsVal 8 (t.filter (fun c => c ≠ '_'))) else none) := rfl
    rw [hspec] at h
    by_cases hb : bodyOk 8 t = true
    · rw [if_pos hb] at h
      have hn := Option.some.inj h
      obtain ⟨hne, hdig⟩ := bodyOk_facts hb
      have hnum : ('0' :: 'o' :: t).filter (fun c => c ≠ '_') =
          '0' :: 'o' :: t.filter (fun c => c ≠ '_') := by
        rw [List.filter_cons, if_pos (by decide), List.filter_cons, if_pos (by decide)]
      simp only [parse_ref, hnum]
      rw [pfx_cons2]
      rw [if_neg (by decide : ¬ (['0', 'o'] : List Char) = ['0', 'x']),
        if_pos (rfl : (['0', 'o'] : List Char) = ['0', 'o']), ← hn]
      exact trim_then_parse '0' 'o' 8 (t.filter (fun c => c ≠ '_')) (by decide) (by decide) hne hdig
    · rw [if_neg hb] at h
      exact Option.noConfusion h
  by_cases h2 : v.take 2 = ['0', 'b']
  · obtain ⟨a, b, t, rfl⟩ : ∃ a b t, v = a :: b :: t := by
      rcases v with _ | ⟨a, _ | ⟨b, t⟩⟩
      · simp at h2
      · simp [List.take] at h2
      · exact ⟨a, b, t, rfl⟩
    obtain ⟨rfl, rfl⟩ : a = '0' ∧ b = 'b' := by
      have := h2
      simp [List.take] at this
      exact this
    have hspec : specLiteralVal ('0' :: 'b' :: t) =
        (if bodyOk 2 t then some (digitsVal 2 (t.filter (fun c => c ≠ '_'))) else none) := rfl
    rw [hspec] at h
    by_cases hb : bodyOk 2 t = true
    · rw [if_pos hb] at h
      have hn := Option.some.inj h
      obtain ⟨hne, hdig⟩ := bodyOk_facts hb
      have hnum : ('0' :: 'b' :: t).filter (fun c => c ≠ '_') =
          '0' :: 'b' :: t.filter (fun c => c ≠ '_') := by
        rw [List.filter_cons, if_pos (by decide), List.filter_cons, if_pos (by decide)]
      simp only [parse_ref, hnum]
      rw [pfx_cons2]
      rw [if_neg (by decide : ¬ (['0', 'b'] : List Char) = ['0', 'x']),
        if_neg (by decide : ¬ (['0', 'b'] : List Char) = ['0', 'o']),
        if_pos (rfl : (['0', 'b'] : List Char) = ['0', 'b']), ← hn]
      exact trim_then_parse '0' 'b' 2 (t.filter (fun c => c ≠ '_')) (by decide) (by decide) hne hdig
    · rw [if_neg hb] at h
      exact Option.noConfusion h
  · -- no prefix: base 10
    have h' : (if bodyOk 10 v then some (digitsVal 10 (v.filter (fun c => c ≠ '_'))) else none) =
        some n := by
      have hx : specLiteralVal v =
          (if bodyOk 10 v then some (digitsVal 10 (v.filter (fun c => c ≠ '_'))) else none) := by
        simp only [specLiteralVal]
        rw [if_neg h16, if_neg h8, if_neg h2]
      rw [← hx]
      exact h
    by_cases hb : bodyOk 10 v = true
    · rw [if_pos hb] at h'
      have hn := Option.some.inj h'
      obtain ⟨hne, hdig⟩ := bodyOk_facts hb
      simp only [parse_ref]
      rw [if_neg (take2_ne_marker '0' 'x' hdig (by decide)),
        if_neg (take2_ne_marker '0' 'o' hdig (by decide)),
        if_neg (take2_ne_marker '0' 'b' hdig (by decide)), ← hn]
      exact from_str_radix_digits 10 (by decide) _ hne hdig
    · rw [if_neg hb] at h'
      exact Option.noConfusion h'

/-- Claim C10 (refuted, see the amended version below): the parser does NOT
accept exactly the stated literal grammar.  `"0x0x1"` is outside the grammar
(after one `0x` prefix the rest must be hex digits, and `x` is not one), yet
the parser accepts it with value `1`, because `trim_start_matches` removes
every leading repetition of the base prefix, not just a single one. -/
theorem claim_C10_counterexample :
    specLiteralVal ['0', 'x', '0', 'x', '1'] = none ∧
      parse_ref ['0', 'x', '0', 'x', '1'] = .ok 1 :=
  ⟨by decide, rfl⟩

/-- Claim C10 (amended): the parser accepts every string of the stated
literal grammar — an optional single `0x`/`0o`/`0b` prefix selecting base
16/8/2 (base 10 otherwise), digits of that base with underscores stripped —
yielding the literal's `u64` value, and rejects in-grammar literals whose
value is out of `u64` range with a parse error; acceptance is however not
exact: some strings outside the grammar (e.g. repeated base prefixes) are
also accepted. -/
theorem claim_C10_amended_grammar_sound (v : List Char) (n : Nat)
    (h : specLiteralVal v = some n) :
    parse_ref v =
      (if n < U64LIM then .ok n
       else .error "number too large to fit in target type") :=
  parse_ref_grammar_sound v n h

theorem claim_C10_amended_grammar_sound_witness :
    (specLiteralVal ['1', '_', '2'] = some 12 ∧ parse_ref ['1', '_', '2'] = .ok 12) :=
  ⟨by decide, by
    have h := claim_C10_amended_grammar_sound ['1', '_', '2'] 12 (by decide)
    rwa [if_pos (by decide : (12 : Nat) < U64LIM)] at h⟩
